import Mathlib

/-!
Shallow embedding of the outbound rate-limited message delivery queue of
`src/cautions/cautions.py` (methods `safe_send_message`, lines 248-277, and
`process_message_queue`, lines 279-325).

State model: the Python dict `self.rate_limit["message_queue"]` maps a channel
id to `{"queue": [...], "last_send": 0, "processing": False}`.  We model it as
an association list from channel ids to a `ChannelQueue` record.  Time is a
rational clock threaded through the worker; `asyncio.sleep(d)` advances the
clock by `max d 0` (a sleep never moves time backwards).  The external send
capability (`channel.send`) is modelled by a response schedule: for each queue
entry, a finite list of rate-limit (HTTP 429) responses each carrying an
optional `retry_after`, followed by a terminal outcome - success, an
`HTTPException` with a status other than 429 (caught, logged, entry dropped),
or an unexpected exception that escapes the inner `try` and aborts the loop
(caught by the outer `except` at line 320).  Each attempt also carries two
nonnegative durations: `pre`, time elapsing before the loop body reads the
clock, and `dur`, the duration of the send call itself.
-/

/-- A queued message: `{"content": content, "embed": embed, "file": file}`
(line 269). -/
structure MessageData where
  content : Option String
  embed : Option String
  file : Option String
deriving Repr, DecidableEq

/-- Per-channel queue state (lines 262-266). -/
structure ChannelQueue where
  queue : List MessageData
  last_send : ℚ
  processing : Bool
deriving Repr, DecidableEq

/-- The fresh per-channel state created on first enqueue (lines 262-266). -/
def initQueue : ChannelQueue := { queue := [], last_send := 0, processing := false }

/-- The dict `self.rate_limit["message_queue"]`, as an association list. -/
abbrev MessageQueueMap := List (String × ChannelQueue)

/-- Dict lookup `self.rate_limit["message_queue"][channel_id]`. -/
def lookupChannel (st : MessageQueueMap) (cid : String) : Option ChannelQueue :=
  match st with
  | [] => none
  | (k, v) :: rest => if k = cid then some v else lookupChannel rest cid

/-- Dict write `self.rate_limit["message_queue"][channel_id] = q` (replaces the
binding if present, inserts it otherwise). -/
def setChannel (st : MessageQueueMap) (cid : String) (q : ChannelQueue) : MessageQueueMap :=
  match st with
  | [] => [(cid, q)]
  | (k, v) :: rest => if k = cid then (k, q) :: rest else (k, v) :: setChannel rest cid q

/-- Terminal outcome of the attempts on one queue entry: `channel.send`
succeeds, raises `discord.HTTPException` with `status != 429` (lines 311-312),
or raises an exception the inner `try` does not catch, aborting the loop
(line 320). -/
inductive Terminal where
  | success
  | httpFailure (reason : String)
  | crash (reason : String)
deriving Repr, DecidableEq

/-- Is the terminal outcome the loop-aborting exception? -/
def Terminal.isCrash : Terminal → Bool
  | .crash _ => true
  | _ => false

/-- Real time consumed by one delivery attempt: `pre` elapses before the loop
body reads `time.time()` (line 290), `dur` is the duration of the
`channel.send` call. -/
structure AttemptInfo where
  pre : ℚ
  dur : ℚ
deriving Repr, DecidableEq

/-- Response schedule for one queue entry: a finite list of HTTP 429 responses,
each with its attempt timing and optional `retry_after` (line 307), then a
final attempt with its timing and terminal outcome. -/
structure EntryPlan where
  rls : List (AttemptInfo × Option ℚ)
  finInfo : AttemptInfo
  fin : Terminal
deriving Repr, DecidableEq

/-- Observable events of a worker run: a successful send (with its completion
time, which becomes `last_send`), a dropped entry (non-429 failure, lines
311-315), and a rate-limit backoff sleep (line 309). -/
inductive Event where
  | sent (m : MessageData) (t : ℚ)
  | dropped (m : MessageData)
  | rlWait (d : ℚ)
deriving Repr, DecidableEq

/-- `asyncio.sleep d` advances the clock; a nonpositive delay yields control
without advancing time. -/
def sleepAdv (now d : ℚ) : ℚ := now + max d 0

/-- Lines 290-295: read `current_time`, and if less than 1 second elapsed since
`last_send`, sleep for the remaining delta.  Returns the clock after the
conditional sleep. -/
def spacingWait (last now : ℚ) : ℚ :=
  if now - last < 1 then sleepAdv now (1 - (now - last)) else now

/-- Result of running the worker loop on a single head entry until it is popped
or the loop aborts. -/
structure EntryResult where
  events : List Event
  last_send : ℚ
  now : ℚ
  crashed : Bool
deriving Repr, DecidableEq

/-- Iterations of the `while` body (lines 285-318) for one head entry `m`:
each 429 response sleeps `retry_after` (default 5, line 307) and `continue`s
without popping; the terminal attempt either succeeds (update `last_send`, pop,
sleep 0.5), fails with a non-429 `HTTPException` (log, pop, sleep 0.5), or
raises out of the loop (entry not popped). -/
def runEntry (m : MessageData) (rls : List (AttemptInfo × Option ℚ)) (fi : AttemptInfo)
    (t : Terminal) (last now : ℚ) : EntryResult :=
  match rls with
  | [] =>
    let now2 := spacingWait last (now + fi.pre)
    let now3 := now2 + fi.dur
    match t with
    | .success =>
        { events := [Event.sent m now3], last_send := now3,
          now := sleepAdv now3 (1/2), crashed := false }
    | .httpFailure _ =>
        { events := [Event.dropped m], last_send := last,
          now := sleepAdv now3 (1/2), crashed := false }
    | .crash _ =>
        { events := [], last_send := last, now := now3, crashed := true }
  | (ai, ra) :: rest =>
    let now2 := spacingWait last (now + ai.pre)
    let now3 := now2 + ai.dur
    let d := ra.getD 5
    let r := runEntry m rest fi t last (sleepAdv now3 d)
    { r with events := Event.rlWait d :: r.events }

/-- Result of a full worker run. -/
structure RunResult where
  events : List Event
  queue : List MessageData
  last_send : ℚ
  now : ℚ
  crashed : Bool
deriving Repr, DecidableEq

/-- Plans for the entries after the head. -/
def shiftPlans (plans : Nat → EntryPlan) : Nat → EntryPlan := fun i => plans (i + 1)

/-- The `while queue_data["queue"]:` loop (lines 285-318): repeatedly service
the head entry; on a loop-aborting exception stop with the head still queued,
otherwise proceed to the rest of the queue. -/
def runQueue : List MessageData → (Nat → EntryPlan) → ℚ → ℚ → RunResult
  | [], _, last, now =>
      { events := [], queue := [], last_send := last, now := now, crashed := false }
  | m :: rest, plans, last, now =>
    let p := plans 0
    let r := runEntry m p.rls p.finInfo p.fin last now
    if r.crashed then
      { events := r.events, queue := m :: rest, last_send := r.last_send,
        now := r.now, crashed := true }
    else
      let r2 := runQueue rest (shiftPlans plans) r.last_send r.now
      { events := r.events ++ r2.events, queue := r2.queue, last_send := r2.last_send,
        now := r2.now, crashed := r2.crashed }

/-- Result of `process_message_queue` / `safe_send_message`: the updated map,
the events produced, and the clock on return. -/
structure ProcResult where
  state : MessageQueueMap
  events : List Event
  now : ℚ
deriving Repr, DecidableEq

/-- `process_message_queue` (lines 279-325): look up the channel state, drain
the queue, and in the `finally` clear the `processing` flag - on the normal and
on the aborted path alike. -/
def process_message_queue (st : MessageQueueMap) (cid : String) (plans : Nat → EntryPlan)
    (now : ℚ) : ProcResult :=
  match lookupChannel st cid with
  | none => { state := st, events := [], now := now }
  | some qd =>
    let r := runQueue qd.queue plans qd.last_send now
    { state := setChannel st cid { queue := r.queue, last_send := r.last_send, processing := false },
      events := r.events, now := r.now }

/-- The synchronous prefix of `safe_send_message` (lines 255-274): return at
once on a falsy channel; otherwise create the channel state if absent, append
the message, and if the `processing` flag is clear, set it.  The boolean
reports whether the caller reaches line 275 and runs the worker. -/
def enqueueSync (st : MessageQueueMap) (channel : Option String) (m : MessageData) :
    MessageQueueMap × Bool :=
  match channel with
  | none => (st, false)
  | some cid =>
    let qd := (lookupChannel st cid).getD initQueue
    let qd1 := { qd with queue := qd.queue ++ [m] }
    if qd1.processing then
      (setChannel st cid qd1, false)
    else
      (setChannel st cid { qd1 with processing := true }, true)

/-- `safe_send_message` (lines 248-277): the synchronous prefix, then - when
the `processing` flag was clear - `return await self.process_message_queue`
(line 275), which drains the queue before the call returns. -/
def safe_send_message (st : MessageQueueMap) (channel : Option String) (m : MessageData)
    (plans : Nat → EntryPlan) (now : ℚ) : ProcResult :=
  let es := enqueueSync st channel m
  if es.2 then
    match channel with
    | some cid => process_message_queue es.1 cid plans now
    | none => { state := es.1, events := [], now := now }
  else
    { state := es.1, events := [], now := now }

/-- N `safe_send_message` calls in rapid succession on one destination: their
synchronous prefixes run back to back while any started worker is suspended at
an await.  Returns the final map and how many of the calls start a worker. -/
def enqueueAll (st : MessageQueueMap) (cid : String) (ms : List MessageData) :
    MessageQueueMap × Nat :=
  match ms with
  | [] => (st, 0)
  | m :: rest =>
    let es := enqueueSync st (some cid) m
    let r := enqueueAll es.1 cid rest
    (r.1, (if es.2 then 1 else 0) + r.2)

/-- The successfully delivered payloads of an event list, in delivery order. -/
def deliveredOf (evs : List Event) : List MessageData :=
  evs.filterMap fun e => match e with | .sent m _ => some m | _ => none

/-- The completion times of the successful sends, in delivery order. -/
def sentTimes (evs : List Event) : List ℚ :=
  evs.filterMap fun e => match e with | .sent _ t => some t | _ => none

/-- The attempt durations of a plan are nonnegative (they model real elapsed
time). -/
abbrev infoNonneg (a : AttemptInfo) : Prop := 0 ≤ a.pre ∧ 0 ≤ a.dur

/-- All attempt durations of an entry plan are nonnegative. -/
abbrev planNonneg (p : EntryPlan) : Prop :=
  (∀ a ∈ p.rls, infoNonneg a.1) ∧ infoNonneg p.finInfo

/-- The `processing` flag the code reads at line 273 (absent channel reads as
the freshly initialised `False`). -/
def procFlag (st : MessageQueueMap) (cid : String) : Bool :=
  ((lookupChannel st cid).getD initQueue).processing

/-- The last element of a list of times, or a default. -/
def lastOrQ (l : List ℚ) (d : ℚ) : ℚ := l.foldl (fun _ b => b) d

/-- Sample payload "a". -/
def sampleMsg : MessageData := { content := some "a", embed := none, file := none }

/-- Sample payload "b". -/
def sampleMsg2 : MessageData := { content := some "b", embed := none, file := none }

/-- A send capability that always succeeds instantly. -/
def alwaysOkPlan : EntryPlan :=
  { rls := [], finInfo := { pre := 0, dur := 0 }, fin := .success }

/-- A send capability that returns a 429 with retry_after 2 once, then succeeds. -/
def rlOncePlan : EntryPlan :=
  { rls := [({ pre := 0, dur := 0 }, some 2)], finInfo := { pre := 0, dur := 0 }, fin := .success }

/-- A send attempt that raises an exception the inner try does not catch. -/
def abortPlan : EntryPlan :=
  { rls := [], finInfo := { pre := 0, dur := 0 }, fin := .crash "unexpected" }

/-- A send attempt that fails with a non-429 HTTPException. -/
def dropPlan : EntryPlan :=
  { rls := [], finInfo := { pre := 0, dur := 0 }, fin := .httpFailure "forbidden" }

/-- A channel whose worker is active and whose queue holds one message. -/
def busyState : MessageQueueMap :=
  [("c", { queue := [sampleMsg2], last_send := 0, processing := true })]

/-- A channel whose worker is active and whose queue holds two messages. -/
def twoQueuedState : MessageQueueMap :=
  [("c", { queue := [sampleMsg, sampleMsg2], last_send := 0, processing := true })]

theorem lookup_set_same (st : MessageQueueMap) (cid : String) (q : ChannelQueue) :
    lookupChannel (setChannel st cid q) cid = some q := by
  induction st with
  | nil => simp [setChannel, lookupChannel]
  | cons kv rest ih =>
    obtain ⟨k, v⟩ := kv
    by_cases h : k = cid
    · simp [setChannel, lookupChannel, h]
    · simp [setChannel, lookupChannel, h, ih]

theorem lookup_set_ne (st : MessageQueueMap) (cid cid2 : String) (q : ChannelQueue)
    (h : cid2 ≠ cid) :
    lookupChannel (setChannel st cid q) cid2 = lookupChannel st cid2 := by
  have h2 : ¬ (cid = cid2) := fun hh => h hh.symm
  induction st with
  | nil => simp [setChannel, lookupChannel, h2]
  | cons kv rest ih =>
    obtain ⟨k, v⟩ := kv
    by_cases hk : k = cid
    · subst hk
      simp [setChannel, lookupChannel, h2]
    · simp [setChannel, lookupChannel, hk, ih]

theorem spacingWait_ge (last now : ℚ) : last + 1 ≤ spacingWait last now := by
  unfold spacingWait sleepAdv
  by_cases h : now - last < 1
  · have h0 : (0 : ℚ) ≤ 1 - (now - last) := by linarith
    rw [if_pos h, max_eq_left h0]
    linarith
  · rw [if_neg h]
    have := not_lt.mp h
    linarith

theorem spacingWait_ge_now (last now : ℚ) : now ≤ spacingWait last now := by
  unfold spacingWait sleepAdv
  by_cases h : now - last < 1
  · rw [if_pos h]
    have := le_max_right (1 - (now - last)) (0 : ℚ)
    linarith
  · rw [if_neg h]

theorem runEntry_crashed (m : MessageData) (rls : List (AttemptInfo × Option ℚ))
    (fi : AttemptInfo) (t : Terminal) (last now : ℚ) :
    (runEntry m rls fi t last now).crashed = t.isCrash := by
  induction rls generalizing now with
  | nil => cases t <;> simp [runEntry, Terminal.isCrash]
  | cons hd tl ih =>
    obtain ⟨ai, ra⟩ := hd
    simp [runEntry, ih]

theorem runEntry_delivered (m : MessageData) (rls : List (AttemptInfo × Option ℚ))
    (fi : AttemptInfo) (t : Terminal) (last now : ℚ) :
    deliveredOf (runEntry m rls fi t last now).events =
      (match t with | .success => [m] | _ => []) := by
  induction rls generalizing now with
  | nil => cases t <;> simp [runEntry, deliveredOf]
  | cons hd tl ih =>
    obtain ⟨ai, ra⟩ := hd
    have h2 := ih (sleepAdv (spacingWait last (now + ai.pre) + ai.dur) (ra.getD 5))
    cases t <;> simpa [runEntry, deliveredOf] using h2

theorem runEntry_success_spec (m : MessageData) (rls : List (AttemptInfo × Option ℚ))
    (fi : AttemptInfo) (last now : ℚ) (hd : 0 ≤ fi.dur) :
    ∃ t0, sentTimes (runEntry m rls fi .success last now).events = [t0] ∧
      last + 1 ≤ t0 ∧ (runEntry m rls fi .success last now).last_send = t0 := by
  induction rls generalizing now with
  | nil =>
    refine ⟨spacingWait last (now + fi.pre) + fi.dur, ?_, ?_, ?_⟩
    · simp [runEntry, sentTimes]
    · have := spacingWait_ge last (now + fi.pre)
      linarith
    · simp [runEntry]
  | cons hd2 tl ih =>
    obtain ⟨ai, ra⟩ := hd2
    obtain ⟨t0, h1, h2, h3⟩ :=
      ih (sleepAdv (spacingWait last (now + ai.pre) + ai.dur) (ra.getD 5))
    refine ⟨t0, ?_, h2, ?_⟩
    · simpa [runEntry, sentTimes] using h1
    · simpa [runEntry] using h3

theorem runEntry_notsuccess_spec (m : MessageData) (rls : List (AttemptInfo × Option ℚ))
    (fi : AttemptInfo) (t : Terminal) (last now : ℚ) (h : t ≠ .success) :
    sentTimes (runEntry m rls fi t last now).events = [] ∧
      (runEntry m rls fi t last now).last_send = last := by
  induction rls generalizing now with
  | nil => cases t <;> simp_all [runEntry, sentTimes]
  | cons hd tl ih =>
    obtain ⟨ai, ra⟩ := hd
    have h2 := ih (sleepAdv (spacingWait last (now + ai.pre) + ai.dur) (ra.getD 5))
    cases t <;> simp_all [runEntry, sentTimes]

theorem runEntry_sent_or_dropped (m : MessageData) (rls : List (AttemptInfo × Option ℚ))
    (fi : AttemptInfo) (t : Terminal) (last now : ℚ) (h : t.isCrash = false) :
    (∃ t0, Event.sent m t0 ∈ (runEntry m rls fi t last now).events) ∨
      Event.dropped m ∈ (runEntry m rls fi t last now).events := by
  induction rls generalizing now with
  | nil =>
    cases t with
    | success => exact Or.inl ⟨spacingWait last (now + fi.pre) + fi.dur, by simp [runEntry]⟩
    | httpFailure r => exact Or.inr (by simp [runEntry])
    | crash r => simp [Terminal.isCrash] at h
  | cons hd tl ih =>
    obtain ⟨ai, ra⟩ := hd
    rcases ih (sleepAdv (spacingWait last (now + ai.pre) + ai.dur) (ra.getD 5)) with ⟨t0, hm⟩ | hm
    · exact Or.inl ⟨t0, by simpa [runEntry] using hm⟩
    · exact Or.inr (by simpa [runEntry] using hm)

theorem deliveredOf_append (a b : List Event) :
    deliveredOf (a ++ b) = deliveredOf a ++ deliveredOf b := by
  simp [deliveredOf, List.filterMap_append]

theorem sentTimes_append (a b : List Event) :
    sentTimes (a ++ b) = sentTimes a ++ sentTimes b := by
  simp [sentTimes, List.filterMap_append]

theorem runQueue_delivered_sublist (Q : List MessageData) (plans : Nat → EntryPlan)
    (last now : ℚ) :
    List.Sublist (deliveredOf (runQueue Q plans last now).events) Q := by
  induction Q generalizing plans last now with
  | nil => simp [runQueue, deliveredOf]
  | cons m rest ih =>
    simp only [runQueue]
    by_cases hc :
        (runEntry m (plans 0).rls (plans 0).finInfo (plans 0).fin last now).crashed = true
    · rw [runEntry_crashed] at hc
      cases hfin : (plans 0).fin with
      | success => rw [hfin] at hc; simp [Terminal.isCrash] at hc
      | httpFailure r =>
        rw [hfin] at hc; simp [Terminal.isCrash] at hc
      | crash r =>
        simp only [runEntry_crashed, hfin, Terminal.isCrash, if_true]
        have hdel := runEntry_delivered m (plans 0).rls (plans 0).finInfo (plans 0).fin last now
        rw [hfin] at hdel
        simp only [hdel]
        exact List.nil_sublist _
    · rw [runEntry_crashed] at hc
      simp only [runEntry_crashed]
      rw [if_neg hc]
      simp only [deliveredOf_append]
      have hdel := runEntry_delivered m (plans 0).rls (plans 0).finInfo (plans 0).fin last now
      have ih2 := ih (shiftPlans plans)
        (runEntry m (plans 0).rls (plans 0).finInfo (plans 0).fin last now).last_send
        (runEntry m (plans 0).rls (plans 0).finInfo (plans 0).fin last now).now
      cases hfin : (plans 0).fin with
      | success =>
        rw [hfin] at hdel
        simp only [hfin] at *
        rw [hdel]
        exact List.Sublist.cons₂ m ih2
      | httpFailure r =>
        rw [hfin] at hdel
        simp only [hfin] at *
        rw [hdel]
        simp only [List.nil_append]
        exact List.Sublist.cons m ih2
      | crash r =>
        rw [hfin] at hc
        simp [Terminal.isCrash] at hc

theorem runQueue_all_success (Q : List MessageData) (plans : Nat → EntryPlan)
    (last now : ℚ) (h : ∀ i, i < Q.length → (plans i).fin = Terminal.success) :
    deliveredOf (runQueue Q plans last now).events = Q := by
  induction Q generalizing plans last now with
  | nil => simp [runQueue, deliveredOf]
  | cons m rest ih =>
    have h0 : (plans 0).fin = Terminal.success := h 0 (by simp)
    have hcr :
        (runEntry m (plans 0).rls (plans 0).finInfo (plans 0).fin last now).crashed = false := by
      rw [runEntry_crashed, h0]
      rfl
    have hdel :
        deliveredOf (runEntry m (plans 0).rls (plans 0).finInfo (plans 0).fin last now).events
          = [m] := by
      rw [h0, runEntry_delivered]
    simp only [runQueue, hcr, if_false, Bool.false_eq_true, deliveredOf_append, hdel]
    rw [ih (shiftPlans plans) _ _ (fun i hi => h (i + 1) (by simpa using Nat.succ_lt_succ hi))]
    rfl

theorem lastOrQ_cons (a : ℚ) (l : List ℚ) (d : ℚ) : lastOrQ (a :: l) d = lastOrQ l a := rfl

theorem runQueue_chain_aux (Q : List MessageData) (plans : Nat → EntryPlan)
    (last now : ℚ) (hnn : ∀ i, planNonneg (plans i)) :
    List.Chain' (fun a b => a + 1 ≤ b) (last :: sentTimes (runQueue Q plans last now).events) ∧
      (runQueue Q plans last now).last_send =
        lastOrQ (sentTimes (runQueue Q plans last now).events) last := by
  induction Q generalizing plans last now with
  | nil => simp [runQueue, sentTimes, lastOrQ]
  | cons m rest ih =>
    cases hfin : (plans 0).fin with
    | success =>
      have hcr :
          (runEntry m (plans 0).rls (plans 0).finInfo (plans 0).fin last now).crashed = false := by
        rw [runEntry_crashed, hfin]
        rfl
      obtain ⟨t0, hs, hb, hl⟩ :=
        runEntry_success_spec m (plans 0).rls (plans 0).finInfo last now (hnn 0).2.2
      obtain ⟨ihc, ihl⟩ := ih (shiftPlans plans)
        (runEntry m (plans 0).rls (plans 0).finInfo Terminal.success last now).last_send
        (runEntry m (plans 0).rls (plans 0).finInfo Terminal.success last now).now
        (fun i => hnn (i + 1))
      rw [hl] at ihc ihl
      simp only [runQueue, hcr, if_false, Bool.false_eq_true, sentTimes_append]
      rw [hfin, hs, hl]
      constructor
      · rw [List.singleton_append]
        exact List.chain'_cons.mpr ⟨hb, ihc⟩
      · rw [List.singleton_append, lastOrQ_cons]
        exact ihl
    | httpFailure r =>
      have hcr :
          (runEntry m (plans 0).rls (plans 0).finInfo (plans 0).fin last now).crashed = false := by
        rw [runEntry_crashed, hfin]
        rfl
      obtain ⟨hs, hl⟩ := runEntry_notsuccess_spec m (plans 0).rls (plans 0).finInfo
        (plans 0).fin last now (by rw [hfin]; intro hh; exact Terminal.noConfusion hh)
      obtain ⟨ihc, ihl⟩ := ih (shiftPlans plans)
        (runEntry m (plans 0).rls (plans 0).finInfo (plans 0).fin last now).last_send
        (runEntry m (plans 0).rls (plans 0).finInfo (plans 0).fin last now).now
        (fun i => hnn (i + 1))
      rw [hl] at ihc ihl
      simp only [runQueue, hcr, if_false, Bool.false_eq_true, sentTimes_append, hs,
        List.nil_append, hl]
      exact ⟨ihc, ihl⟩
    | crash r =>
      have hcr :
          (runEntry m (plans 0).rls (plans 0).finInfo (plans 0).fin last now).crashed = true := by
        rw [runEntry_crashed, hfin]
        rfl
      obtain ⟨hs, hl⟩ := runEntry_notsuccess_spec m (plans 0).rls (plans 0).finInfo
        (plans 0).fin last now (by rw [hfin]; intro hh; exact Terminal.noConfusion hh)
      simp only [runQueue, hcr, if_true, hs, hl, lastOrQ]
      simp [List.Chain']

theorem enqueueSync_flag_true (st : MessageQueueMap) (cid : String) (m : MessageData)
    (h : procFlag st cid = true) :
    (enqueueSync st (some cid) m).2 = false ∧
      procFlag (enqueueSync st (some cid) m).1 cid = true := by
  simp only [enqueueSync, procFlag] at h ⊢
  rw [h]
  simp [lookup_set_same, h]

theorem enqueueSync_flag_false (st : MessageQueueMap) (cid : String) (m : MessageData)
    (h : procFlag st cid = false) :
    (enqueueSync st (some cid) m).2 = true ∧
      procFlag (enqueueSync st (some cid) m).1 cid = true := by
  simp only [enqueueSync, procFlag] at h ⊢
  rw [h]
  simp [lookup_set_same, h]

theorem enqueueAll_flag_true (st : MessageQueueMap) (cid : String) (ms : List MessageData)
    (h : procFlag st cid = true) :
    (enqueueAll st cid ms).2 = 0 := by
  induction ms generalizing st with
  | nil => simp [enqueueAll]
  | cons m rest ih =>
    obtain ⟨h1, h2⟩ := enqueueSync_flag_true st cid m h
    simp [enqueueAll, h1, ih _ h2]

theorem enqueueSync_frame (st : MessageQueueMap) (cid cid2 : String) (m : MessageData)
    (h : cid2 ≠ cid) :
    lookupChannel (enqueueSync st (some cid) m).1 cid2 = lookupChannel st cid2 := by
  simp only [enqueueSync]
  split
  · exact lookup_set_ne st cid cid2 _ h
  · exact lookup_set_ne st cid cid2 _ h

theorem process_frame (st : MessageQueueMap) (cid cid2 : String) (plans : Nat → EntryPlan)
    (now : ℚ) (h : cid2 ≠ cid) :
    lookupChannel (process_message_queue st cid plans now).state cid2 =
      lookupChannel st cid2 := by
  unfold process_message_queue
  cases hl : lookupChannel st cid with
  | none => simp
  | some qd => simp [lookup_set_ne st cid cid2 _ h]

/-- Claim C1: successful deliveries occur in exactly the enqueue order: the
delivered sequence of any worker run is an order-preserving sublist of the
queue (FIFO even across backoff retries and drops); when every attempt
succeeds the delivered sequence equals the queue; and an enqueue only appends
to the destination's queue, never reordering it. -/
theorem c1_fifo_order (Q : List MessageData) (plans : Nat → EntryPlan) (last now : ℚ)
    (st : MessageQueueMap) (cid : String) (m : MessageData) :
    List.Sublist (deliveredOf (runQueue Q plans last now).events) Q ∧
    ((∀ i, i < Q.length → (plans i).fin = Terminal.success) →
      deliveredOf (runQueue Q plans last now).events = Q) ∧
    ((lookupChannel (enqueueSync st (some cid) m).1 cid).getD initQueue).queue =
      ((lookupChannel st cid).getD initQueue).queue ++ [m] := by
  refine ⟨runQueue_delivered_sublist Q plans last now,
    fun h => runQueue_all_success Q plans last now h, ?_⟩
  simp only [enqueueSync]
  split
  · simp [lookup_set_same]
  · simp [lookup_set_same]

/-- Claim C1 witness: three payloads against an always-succeeding capability
are delivered exactly in enqueue order. -/
theorem c1_fifo_order_witness :
    deliveredOf (runQueue [sampleMsg, sampleMsg2] (fun _ => alwaysOkPlan) 0 0).events =
      [sampleMsg, sampleMsg2] :=
  (c1_fifo_order [sampleMsg, sampleMsg2] (fun _ => alwaysOkPlan) 0 0 [] "c" sampleMsg).2.1
    (by decide)

/-- Claim C2 counterexample: the claim says the enqueue call performs no
send-capability calls and does not block until delivery, but on a fresh
channel `safe_send_message` finds the `processing` flag clear and runs
`process_message_queue` inline (line 275), so the send happens during the
enqueue call itself: here the call's own event trace contains the successful
send. -/
theorem c2_counterexample :
    (safe_send_message [] (some "c") sampleMsg (fun _ => alwaysOkPlan) 0).events =
      [Event.sent sampleMsg 1] ∧
    deliveredOf
      (safe_send_message [] (some "c") sampleMsg (fun _ => alwaysOkPlan) 0).events =
      [sampleMsg] := by
  norm_num [safe_send_message, enqueueSync, process_message_queue, runQueue, runEntry,
    lookupChannel, setChannel, spacingWait, sleepAdv, deliveredOf, sampleMsg,
    alwaysOkPlan, initQueue, shiftPlans, lookup_set_same, List.filterMap_cons,
    List.filterMap_nil]

/-- Claim C2 (amended): when a worker is already processing the destination
(the `processing` flag is set), `safe_send_message` only appends the payload
to the destination's queue and returns at once - no send-capability call, no
time passes, and no worker is started; when no worker is processing, the call
itself runs the delivery worker inline before returning. -/
theorem c2_enqueue_append_only (st : MessageQueueMap) (cid : String) (m : MessageData)
    (plans : Nat → EntryPlan) (now : ℚ) (qd : ChannelQueue)
    (h : lookupChannel st cid = some qd) (hp : qd.processing = true) :
    safe_send_message st (some cid) m plans now =
      { state := setChannel st cid { qd with queue := qd.queue ++ [m] },
        events := [], now := now } := by
  simp [safe_send_message, enqueueSync, h, hp]

/-- Claim C2 witness: with the worker active, an enqueue appends "a" behind
the already-queued "b" and performs no sends. -/
theorem c2_enqueue_append_only_witness :
    safe_send_message busyState (some "c") sampleMsg (fun _ => alwaysOkPlan) 0 =
      { state := setChannel busyState "c"
          { queue := [sampleMsg2, sampleMsg], last_send := 0, processing := true },
        events := [], now := 0 } :=
  c2_enqueue_append_only busyState "c" sampleMsg (fun _ => alwaysOkPlan) 0
    { queue := [sampleMsg2], last_send := 0, processing := true } rfl rfl

/-- Claim C3: at most one delivery worker per destination: an enqueue that
finds the `processing` flag set only appends and spawns no worker, so N
successive enqueue calls spawn exactly one worker when the destination was
idle, and none when a worker was already active. -/
theorem c3_single_worker (st : MessageQueueMap) (cid : String) (ms : List MessageData)
    (hne : ms ≠ []) :
    (procFlag st cid = false → (enqueueAll st cid ms).2 = 1) ∧
    (procFlag st cid = true → (enqueueAll st cid ms).2 = 0) := by
  constructor
  · intro h
    cases ms with
    | nil => exact absurd rfl hne
    | cons m rest =>
      obtain ⟨h1, h2⟩ := enqueueSync_flag_false st cid m h
      simp [enqueueAll, h1, enqueueAll_flag_true _ _ _ h2]
  · intro h
    exact enqueueAll_flag_true st cid ms h

/-- Claim C3 witness: two rapid enqueues on a fresh destination spawn exactly
one worker. -/
theorem c3_single_worker_witness : (enqueueAll [] "c" [sampleMsg, sampleMsg2]).2 = 1 :=
  (c3_single_worker [] "c" [sampleMsg, sampleMsg2] (by decide)).1 (by decide)

/-- Claim C9: a falsy channel makes `safe_send_message` return None at line
256 before touching any state: the map is unchanged, no events happen, no time
passes, and no worker is started. -/
theorem c9_null_channel (st : MessageQueueMap) (m : MessageData)
    (plans : Nat → EntryPlan) (now : ℚ) :
    safe_send_message st none m plans now = { state := st, events := [], now := now } ∧
    enqueueSync st none m = (st, false) :=
  ⟨rfl, rfl⟩

/-- Claim C10: on every termination path of the worker - queue drained or loop
aborted by an unexpected exception - the `finally` at lines 323-325 clears the
destination's `processing` flag before `process_message_queue` returns. -/
theorem c10_flag_cleared (st : MessageQueueMap) (cid : String) (plans : Nat → EntryPlan)
    (now : ℚ) (qd : ChannelQueue) (h : lookupChannel st cid = some qd) :
    ∃ q2, lookupChannel (process_message_queue st cid plans now).state cid = some q2 ∧
      q2.processing = false := by
  simp only [process_message_queue, h]
  exact ⟨_, lookup_set_same _ _ _, rfl⟩

/-- Claim C10 witness: even when the very first attempt aborts the loop with
an unexpected exception, the worker returns with the flag cleared. -/
theorem c10_flag_cleared_witness :
    ∃ q2, lookupChannel
        (process_message_queue twoQueuedState "c" (fun _ => abortPlan) 0).state "c" =
          some q2 ∧ q2.processing = false :=
  c10_flag_cleared twoQueuedState "c" (fun _ => abortPlan) 0
    { queue := [sampleMsg, sampleMsg2], last_send := 0, processing := true } rfl

/-- Claim C4: on a 429 for the head entry the worker emits a backoff wait of
the provider-supplied `retry_after` (default 5 when absent, line 307), does
not pop the entry, and retries it; when the next attempt succeeds the entry is
delivered exactly once - the send comes after the wait, at a time at least
`retry_after` past the loop entry - and is never duplicated. -/
theorem c4_rate_limit_retry (m : MessageData) (rest : List MessageData)
    (ai fi : AttemptInfo) (ra : Option ℚ) (plans : Nat → EntryPlan) (last now : ℚ)
    (hp : plans 0 = { rls := [(ai, ra)], finInfo := fi, fin := Terminal.success })
    (hm : m ∉ rest)
    (hnn : 0 ≤ ai.pre ∧ 0 ≤ ai.dur ∧ 0 ≤ fi.pre ∧ 0 ≤ fi.dur) :
    ∃ t0 evs2,
      (runQueue (m :: rest) plans last now).events =
        Event.rlWait (ra.getD 5) :: Event.sent m t0 :: evs2 ∧
      now + ra.getD 5 ≤ t0 ∧
      (deliveredOf (runQueue (m :: rest) plans last now).events).count m = 1 := by
  have hev : (runQueue (m :: rest) plans last now).events =
      Event.rlWait (ra.getD 5) ::
        Event.sent m
          (spacingWait last
            (sleepAdv (spacingWait last (now + ai.pre) + ai.dur) (ra.getD 5) + fi.pre) +
            fi.dur) ::
        (runQueue rest (shiftPlans plans)
          (spacingWait last
            (sleepAdv (spacingWait last (now + ai.pre) + ai.dur) (ra.getD 5) + fi.pre) +
            fi.dur)
          (sleepAdv
            (spacingWait last
              (sleepAdv (spacingWait last (now + ai.pre) + ai.dur) (ra.getD 5) + fi.pre) +
              fi.dur) (1/2))).events := by
    simp [runQueue, runEntry, hp]
  refine ⟨_, _, hev, ?_, ?_⟩
  · have h1 := spacingWait_ge_now last (now + ai.pre)
    have h2 := spacingWait_ge_now last
      (sleepAdv (spacingWait last (now + ai.pre) + ai.dur) (ra.getD 5) + fi.pre)
    have h3 : ra.getD 5 ≤ max (ra.getD 5) 0 := le_max_left _ _
    obtain ⟨ha, hb, hc, hd2⟩ := hnn
    simp only [sleepAdv] at h2 ⊢
    linarith
  · have hnot : m ∉ deliveredOf (runQueue rest (shiftPlans plans)
        (spacingWait last
          (sleepAdv (spacingWait last (now + ai.pre) + ai.dur) (ra.getD 5) + fi.pre) +
          fi.dur)
        (sleepAdv
          (spacingWait last
            (sleepAdv (spacingWait last (now + ai.pre) + ai.dur) (ra.getD 5) + fi.pre) +
            fi.dur) (1/2))).events :=
      fun hmem => hm ((runQueue_delivered_sublist _ _ _ _).subset hmem)
    rw [hev]
    have hshape : deliveredOf (Event.rlWait (ra.getD 5) ::
        Event.sent m
          (spacingWait last
            (sleepAdv (spacingWait last (now + ai.pre) + ai.dur) (ra.getD 5) + fi.pre) +
            fi.dur) ::
        (runQueue rest (shiftPlans plans)
          (spacingWait last
            (sleepAdv (spacingWait last (now + ai.pre) + ai.dur) (ra.getD 5) + fi.pre) +
            fi.dur)
          (sleepAdv
            (spacingWait last
              (sleepAdv (spacingWait last (now + ai.pre) + ai.dur) (ra.getD 5) + fi.pre) +
              fi.dur) (1/2))).events) =
        m :: deliveredOf (runQueue rest (shiftPlans plans)
          (spacingWait last
            (sleepAdv (spacingWait last (now + ai.pre) + ai.dur) (ra.getD 5) + fi.pre) +
            fi.dur)
          (sleepAdv
            (spacingWait last
              (sleepAdv (spacingWait last (now + ai.pre) + ai.dur) (ra.getD 5) + fi.pre) +
              fi.dur) (1/2))).events := by
      simp [deliveredOf]
    rw [hshape, List.count_cons_self, List.count_eq_zero.mpr hnot]

/-- Claim C4 witness: a 429 carrying retry_after 2 once, then success: the
entry waits 2, is sent once at time at least 2, and is not duplicated. -/
theorem c4_rate_limit_retry_witness :
    ∃ t0 evs2,
      (runQueue [sampleMsg] (fun _ => rlOncePlan) 0 0).events =
        Event.rlWait 2 :: Event.sent sampleMsg t0 :: evs2 ∧
      (0:ℚ) + 2 ≤ t0 ∧
      (deliveredOf (runQueue [sampleMsg] (fun _ => rlOncePlan) 0 0).events).count
        sampleMsg = 1 :=
  c4_rate_limit_retry sampleMsg [] { pre := 0, dur := 0 } { pre := 0, dur := 0 } (some 2)
    (fun _ => rlOncePlan) 0 0 rfl (by simp) (by norm_num)

/-- Claim C5: a non-429 delivery failure is logged and the entry popped after
the single attempt, `last_send` is not updated, and the worker continues
with the rest of the queue exactly as a fresh run on it. -/
theorem c5_drop_on_failure (m : MessageData) (rest : List MessageData) (fi : AttemptInfo)
    (reason : String) (plans : Nat → EntryPlan) (last now : ℚ)
    (hp : plans 0 = { rls := [], finInfo := fi, fin := Terminal.httpFailure reason }) :
    (runQueue (m :: rest) plans last now).events =
      Event.dropped m ::
        (runQueue rest (shiftPlans plans) last
          (sleepAdv (spacingWait last (now + fi.pre) + fi.dur) (1/2))).events ∧
    (runQueue (m :: rest) plans last now).queue =
      (runQueue rest (shiftPlans plans) last
        (sleepAdv (spacingWait last (now + fi.pre) + fi.dur) (1/2))).queue ∧
    (runQueue (m :: rest) plans last now).last_send =
      (runQueue rest (shiftPlans plans) last
        (sleepAdv (spacingWait last (now + fi.pre) + fi.dur) (1/2))).last_send := by
  refine ⟨?_, ?_, ?_⟩ <;> simp [runQueue, runEntry, hp]

/-- Claim C5 witness: with an always-failing capability the head entry is
dropped after one attempt and the run continues on the remaining entry. -/
theorem c5_drop_on_failure_witness :
    (runQueue [sampleMsg, sampleMsg2] (fun _ => dropPlan) 0 0).events =
      Event.dropped sampleMsg ::
        (runQueue [sampleMsg2] (shiftPlans (fun _ => dropPlan)) 0
          (sleepAdv (spacingWait 0 (0 + 0) + 0) (1/2))).events :=
  (c5_drop_on_failure sampleMsg [sampleMsg2] { pre := 0, dur := 0 } "forbidden"
    (fun _ => dropPlan) 0 0 rfl).1

/-- Claim C6: consecutive successful sends on one destination are at least the
minimum spacing of 1 apart, measured from the destination's `last_send`
(updated only on success, line 304): the send times of a worker run form a
chain each at least 1 above its predecessor, starting from `last_send`. -/
theorem c6_min_spacing (st : MessageQueueMap) (cid : String) (plans : Nat → EntryPlan)
    (now : ℚ) (qd : ChannelQueue) (h : lookupChannel st cid = some qd)
    (hnn : ∀ i, planNonneg (plans i)) :
    List.Chain' (fun a b => a + 1 ≤ b)
      (qd.last_send :: sentTimes (process_message_queue st cid plans now).events) := by
  simp only [process_message_queue, h]
  exact (runQueue_chain_aux qd.queue plans qd.last_send now hnn).1

/-- Claim C6 witness: two instantly-succeeding sends on one channel are spaced
at least 1 apart. -/
theorem c6_min_spacing_witness :
    List.Chain' (fun a b => a + 1 ≤ b)
      ((0:ℚ) ::
        sentTimes
          (process_message_queue twoQueuedState "c" (fun _ => alwaysOkPlan) 0).events) :=
  c6_min_spacing twoQueuedState "c" (fun _ => alwaysOkPlan) 0
    { queue := [sampleMsg, sampleMsg2], last_send := 0, processing := true } rfl
    (fun _ => ⟨by simp [alwaysOkPlan], by norm_num [alwaysOkPlan], by norm_num [alwaysOkPlan]⟩)

/-- Claim C7 counterexample: the claim says the worker terminates only when
its queue is empty and abandons no entry, but an unexpected exception on the
first attempt aborts the loop (outer except, line 320): the worker returns
(flag cleared by the finally) with both entries still queued and neither
delivered nor dropped - no event at all. -/
theorem c7_counterexample :
    (process_message_queue twoQueuedState "c" (fun _ => abortPlan) 0).events = [] ∧
    lookupChannel
        (process_message_queue twoQueuedState "c" (fun _ => abortPlan) 0).state "c" =
      some { queue := [sampleMsg, sampleMsg2], last_send := 0, processing := false } := by
  norm_num [process_message_queue, runQueue, runEntry, twoQueuedState, abortPlan,
    lookupChannel, setChannel, spacingWait, sleepAdv, initQueue]

/-- Claim C7 (amended): provided no delivery attempt raises an unexpected
loop-aborting exception (every attempt resolves to success, a 429, or an
ordinary HTTP failure), every enqueued entry is either successfully delivered
or explicitly dropped after its non-rate-limit failure, and the worker
terminates with an empty queue; when an unexpected exception does abort the
loop, the worker still terminates but abandons the unprocessed entries. -/
theorem c7_drain_or_drop (Q : List MessageData) (plans : Nat → EntryPlan) (last now : ℚ)
    (h : ∀ i, i < Q.length → (plans i).fin.isCrash = false) :
    (runQueue Q plans last now).queue = [] ∧
    ∀ m2 ∈ Q,
      (∃ t0, Event.sent m2 t0 ∈ (runQueue Q plans last now).events) ∨
        Event.dropped m2 ∈ (runQueue Q plans last now).events := by
  induction Q generalizing plans last now with
  | nil => simp [runQueue]
  | cons m rest ih =>
    have h0 : (plans 0).fin.isCrash = false := h 0 (by simp)
    have hcr :
        (runEntry m (plans 0).rls (plans 0).finInfo (plans 0).fin last now).crashed = false := by
      rw [runEntry_crashed]
      exact h0
    obtain ⟨ihq, ihm⟩ := ih (shiftPlans plans)
      (runEntry m (plans 0).rls (plans 0).finInfo (plans 0).fin last now).last_send
      (runEntry m (plans 0).rls (plans 0).finInfo (plans 0).fin last now).now
      (fun i hi => h (i + 1) (by simpa using Nat.succ_lt_succ hi))
    simp only [runQueue, hcr, if_false, Bool.false_eq_true]
    refine ⟨ihq, ?_⟩
    intro m2 hm2
    rcases List.mem_cons.mp hm2 with hEq | hMem
    · subst hEq
      rcases runEntry_sent_or_dropped m2 (plans 0).rls (plans 0).finInfo (plans 0).fin
          last now h0 with ⟨t0, hs⟩ | hs
      · exact Or.inl ⟨t0, List.mem_append_left _ hs⟩
      · exact Or.inr (List.mem_append_left _ hs)
    · rcases ihm m2 hMem with ⟨t0, hs⟩ | hs
      · exact Or.inl ⟨t0, List.mem_append_right _ hs⟩
      · exact Or.inr (List.mem_append_right _ hs)

/-- Claim C7 witness: with no aborting attempt, a two-entry queue drains
completely and each entry is delivered or dropped. -/
theorem c7_drain_or_drop_witness :
    (runQueue [sampleMsg, sampleMsg2] (fun _ => alwaysOkPlan) 0 0).queue = [] ∧
    ∀ m2 ∈ [sampleMsg, sampleMsg2],
      (∃ t0, Event.sent m2 t0 ∈
        (runQueue [sampleMsg, sampleMsg2] (fun _ => alwaysOkPlan) 0 0).events) ∨
        Event.dropped m2 ∈
          (runQueue [sampleMsg, sampleMsg2] (fun _ => alwaysOkPlan) 0 0).events :=
  c7_drain_or_drop [sampleMsg, sampleMsg2] (fun _ => alwaysOkPlan) 0 0 (by decide)

/-- Claim C8: operations on one destination leave every other destination's
state - entries, `last_send`, and `processing` flag - unchanged: both
`safe_send_message` and `process_message_queue` on channel `cid` preserve the
binding of any other channel. -/
theorem c8_frame (st : MessageQueueMap) (cid cid2 : String) (m : MessageData)
    (plans : Nat → EntryPlan) (now : ℚ) (h : cid2 ≠ cid) :
    lookupChannel (safe_send_message st (some cid) m plans now).state cid2 =
      lookupChannel st cid2 ∧
    lookupChannel (process_message_queue st cid plans now).state cid2 =
      lookupChannel st cid2 := by
  refine ⟨?_, process_frame st cid cid2 plans now h⟩
  simp only [safe_send_message]
  split
  · rw [process_frame (enqueueSync st (some cid) m).1 cid cid2 plans now h]
    exact enqueueSync_frame st cid cid2 m h
  · exact enqueueSync_frame st cid cid2 m h

/-- Claim C8 witness: an enqueue and a worker run on channel "c" leave channel
"d" exactly as it was. -/
theorem c8_frame_witness :
    lookupChannel
        (safe_send_message busyState (some "c") sampleMsg (fun _ => alwaysOkPlan) 0).state
        "d" = lookupChannel busyState "d" ∧
    lookupChannel
        (process_message_queue busyState "c" (fun _ => alwaysOkPlan) 0).state "d" =
      lookupChannel busyState "d" :=
  c8_frame busyState "c" "d" sampleMsg (fun _ => alwaysOkPlan) 0 (by decide)
